import Mathlib

/-!
Verification of the Utah durable agent runtime (inngest/utah).

Shallow embedding of the core data model and operations:
session store (src/src/lib/session.ts), compaction (src/unnamed/part_018),
runtime-message pruning and the agent loop (src/src/agent-loop.ts),
tool dispatch (src/unnamed/part_017), the message handler
(src/src/functions/message.ts) and the heartbeat
(src/src/functions/heartbeat.ts).

JavaScript strings are modelled as Lean strings; the embedding assumes
contents are in the Basic Multilingual Plane, so the JavaScript code-unit
length of a string equals its Lean character count.  Text primitives
(slice, split, trim, toUpperCase, join) are modelled by executable
character-list functions so that concrete witnesses evaluate in the kernel.
External effects (file bodies, LLM completions, tool bodies, clocks) enter
as explicit oracle parameters; everything the repository computes from them
is translated from the source.
-/

namespace Utah

/-! ## JavaScript text primitives -/

/-- Model of `s.slice(0, n)` (BMP strings). -/
def jsTake (s : String) (n : Nat) : String := ⟨s.data.take n⟩

/-- Model of `s.slice(-n)` for `n > 0`: the last `n` characters
(the whole string when it is shorter than `n`). -/
def jsTakeRight (s : String) (n : Nat) : String :=
  ⟨s.data.drop (s.data.length - n)⟩

/-- Model of `s.toUpperCase()` for ASCII contents. -/
def jsUpper (s : String) : String := ⟨s.data.map Char.toUpper⟩

/-- Model of `s.trim()`: strip whitespace from both ends. -/
def jsTrim (s : String) : String :=
  ⟨((s.data.dropWhile Char.isWhitespace).reverse.dropWhile Char.isWhitespace).reverse⟩

/-- Splits a character list at every occurrence of `c`, keeping empty pieces;
models `s.split(c)` in JavaScript. -/
def splitOnCharAux (c : Char) : List Char → List Char → List (List Char)
  | [], acc => [acc.reverse]
  | x :: xs, acc =>
      if x = c then acc.reverse :: splitOnCharAux c xs []
      else splitOnCharAux c xs (x :: acc)

/-- Model of `s.split("\n")`. -/
def jsSplitNewline (s : String) : List String :=
  (splitOnCharAux '\n' s.data []).map (fun cs => ⟨cs⟩)

/-- Model of `arr.join("\n")` on an array of strings. -/
def joinNewline : List String → String
  | [] => ""
  | [s] => s
  | s :: rest => s ++ "\n" ++ joinNewline rest

/-- UTF-8 byte length of a string; models `Buffer.byteLength(s, "utf-8")`. -/
def utf8Len (s : String) : Nat := (s.data.map Char.utf8Size).sum

/-- Decimal rendering of a natural number (fuel-based so that it reduces in
the kernel); models JavaScript template interpolation of a number. -/
def decGo : Nat → Nat → List Char → List Char
  | 0, _, acc => acc
  | fuel + 1, n, acc =>
      let acc' := Nat.digitChar (n % 10) :: acc
      if n / 10 = 0 then acc' else decGo fuel (n / 10) acc'

def natToDec (n : Nat) : String := ⟨decGo (n + 1) n []⟩

theorem strLength_mk (l : List Char) : String.length ⟨l⟩ = l.length := rfl

/-! ## Configuration (src/src/config.ts, src/src/functions/heartbeat.ts)

Default values of the configuration object; environment overrides are not
modelled (the spec and claims use the defaults). -/

def configMaxIterations : Nat := 20
def configCompactionMaxTokens : Nat := 150000
/-- `config.compaction.maxTokens * config.compaction.threshold = 150000 * 0.8`,
which is exactly the float `120000.0`; an integer token estimate exceeds it
iff it exceeds the natural number 120000. -/
def configCompactionLimit : Nat := 120000
def configKeepRecentTokens : Nat := 20000
def configLLMProvider : String := "anthropic"
def configLLMModel : String := "claude-sonnet-4-20250514"
def modelString : String := configLLMProvider ++ "/" ++ configLLMModel

/-! ## Session store (src/src/lib/session.ts)

A session file is an append-only JSONL log.  The file system is modelled as
a map from session key to the list of records of that session; the parsed
content of `JSON.parse` on a line is modelled by a parser oracle. -/

structure SessionMeta where
  iterations : Nat
  toolCalls : Nat
deriving DecidableEq

structure SessionMessage where
  role : String
  content : String
  timestamp : String
  metadata : Option SessionMeta := none
deriving DecidableEq

def SessionStore := String → List SessionMessage

/-- `appendToSession(sessionKey, role, content, metadata)`: appends one
record with the current timestamp (`ts`, an oracle for `new Date()`). -/
def appendToSession (store : SessionStore) (sessionKey role content : String)
    (metadata : Option SessionMeta) (ts : String) : SessionStore :=
  fun k =>
    if k = sessionKey then store k ++ [⟨role, content, ts, metadata⟩]
    else store k

/-- Model of `arr.slice(-n)` in `loadSession`: the last `n` elements, except
that `slice(-0)` is `slice(0)`, the whole array. -/
def jsSliceLast (n : Nat) (l : List SessionMessage) : List SessionMessage :=
  if n = 0 then l else l.drop (l.length - n)

/-- `lines.map((l) => JSON.parse(l))`: JavaScript `map` stops at the first
line on which `JSON.parse` throws; in that case the surrounding `try` block
aborts.  `parse` is the oracle for `JSON.parse` on one line (`none` models a
throw, i.e. a malformed line). -/
def parseAllLines (parse : String → Option SessionMessage) :
    List String → Option (List SessionMessage)
  | [] => some []
  | l :: ls =>
      match parse l with
      | none => none
      | some m => (parseAllLines parse ls).map (fun ms => m :: ms)

/-- `loadSession(sessionKey, maxMessages)`.  `file` is the content of the
session file (`none` when the file is absent, so `readFile` throws).  The
whole body is wrapped in one `try { ... } catch { return [] }`. -/
def loadSession (parse : String → Option SessionMessage)
    (file : Option String) (maxMessages : Nat := 20) : List SessionMessage :=
  match file with
  | none => []
  | some content =>
      let lines := (jsSplitNewline (jsTrim content)).filter (fun l => l ≠ "")
      match parseAllLines parse lines with
      | none => []
      | some msgs => jsSliceLast maxMessages msgs

/-! ## Compaction (src/unnamed/part_018)

`runCompaction` summarizes the head of the conversation with an LLM call;
the summary text and the timestamp are oracle parameters.  In this module
(`src/unnamed/part_018`) session message content is always a string. -/

/-- `estimateMessageTokens`: `Math.ceil(msg.content.length / 4)`. -/
def estimateMessageTokens (m : SessionMessage) : Nat :=
  (m.content.length + 3) / 4

/-- `estimateTokens`: `messages.reduce((sum, msg) => sum + estimateMessageTokens(msg), 0)`. -/
def estimateTokens (ms : List SessionMessage) : Nat :=
  ms.foldl (fun sum m => sum + estimateMessageTokens m) 0

/-- `shouldCompact`: `estimateTokens(messages) > maxTokens * threshold`. -/
def shouldCompact (ms : List SessionMessage) : Bool :=
  configCompactionLimit < estimateTokens ms

/-- Modelled from the spec: the token estimate of section 4.6, whose
per-message count is the UTF-8 **byte** length of the content divided by 4
and rounded up (the source instead uses the character count
`msg.content.length`).  Used only to compare the spec against the source. -/
def specEstimateMessageTokens (m : SessionMessage) : Nat :=
  (utf8Len m.content + 3) / 4

/-- Modelled from the spec: `ShouldCompact(messages) = totalTokens >
maxTokens * threshold` with the byte-based token estimate. -/
def specShouldCompact (ms : List SessionMessage) : Bool :=
  configCompactionLimit < (ms.map specEstimateMessageTokens).sum

/-- The walk from the tail in `runCompaction`: starting from the last
message, accumulate `estimateMessageTokens` until the total reaches
`keepRecentTokens`; returns the number of tail messages consumed when the
threshold is first reached (`none` if it never is).  The argument is the
reversed message list. -/
def compactionTailCount (keep : Nat) : List SessionMessage → Nat → Option Nat
  | [], _ => none
  | m :: rest, acc =>
      let acc' := acc + estimateMessageTokens m
      if keep ≤ acc' then some 1
      else (compactionTailCount keep rest acc').map (fun s => s + 1)

/-- The `cutIndex` computed by `runCompaction`: the index `i` at which the
backwards walk first reaches `keepRecentTokens` (everything before `i` is
summarized, `messages[i..]` is kept); `messages.length` if never reached. -/
def compactionCutIndex (ms : List SessionMessage) : Nat :=
  match compactionTailCount configKeepRecentTokens ms.reverse 0 with
  | some s => ms.length - s
  | none => ms.length

/-- The synthetic user message built by `runCompaction` around the summary
text returned by the LLM. -/
def mkCompactionSummaryMessage (summaryText now : String) : SessionMessage :=
  { role := "user"
    content := "The conversation history before this point was compacted into the following summary:\n\n<summary>\n"
      ++ summaryText ++ "\n</summary>"
    timestamp := now }

/-- `runCompaction(messages, sessionKey)`.  `summaryText` is the oracle for
the text of the summarization `callLLM` response and `now` for
`new Date().toISOString()`; the returned pair is the new message array and
the session store after the `writeSession` persistence step. -/
def runCompaction (summaryText now : String) (ms : List SessionMessage)
    (sessionKey : String) (store : SessionStore) :
    List SessionMessage × SessionStore :=
  let cut := compactionCutIndex ms
  if cut ≤ 1 then (ms, store)
  else
    let compacted := mkCompactionSummaryMessage summaryText now :: ms.drop cut
    (compacted, fun k => if k = sessionKey then compacted else store k)

/-! ## Runtime messages (pi-ai shapes used by src/src/agent-loop.ts)

In-memory conversation entries for one run.  User content is a string;
assistant and tool-result content are arrays of content blocks. -/

inductive Block
  | text (text : String)
  | toolCall (id name : String) (arguments : List (String × String))
  | thinking (thinking : String)
deriving DecidableEq

inductive Message
  | user (content : String)
  | assistant (content : List Block)
  | toolResult (toolCallId toolName : String) (content : List Block) (isError : Bool)
deriving DecidableEq

/-- The `role` field of a runtime message. -/
def Message.role : Message → String
  | .user _ => "user"
  | .assistant _ => "assistant"
  | .toolResult _ _ _ _ => "toolResult"

/-! ## Pruner (src/src/agent-loop.ts, PRUNING / pruneOldToolResults) -/

def pruningPlaceholder : String := "[Tool result cleared — old context]"

/-- Character count contributed by one content block to `totalToolChars`
(only text blocks count). -/
def blockTextChars : Block → Nat
  | .text t => t.length
  | _ => 0

/-- Character count of the text blocks of one message, counting only
tool-result messages (the pruning loops skip every other role). -/
def msgToolChars : Message → Nat
  | .toolResult _ _ content _ => (content.map blockTextChars).sum
  | _ => 0

/-- `totalToolChars`: text characters of tool results older than the last
`keepLastAssistantTurns * 2 = 6` positions. -/
def oldToolChars (ms : List Message) : Nat :=
  ((ms.take (ms.length - 6)).map msgToolChars).sum

/-- The soft-trim tier: texts longer than `softTrim.maxChars = 4000` keep
`head(1500)` and `tail(1500)` around a trim marker. -/
def softTrimText (t : String) : String :=
  if 4000 < t.length then
    jsTake t 1500 ++ "\n\n... [" ++ natToDec (t.length - 3000)
      ++ " chars trimmed] ...\n\n" ++ jsTakeRight t 1500
  else t

/-- Rewrites one content block under the chosen tier (`hard = true` when
`totalToolChars > hardClear.threshold = 50000`). -/
def pruneBlock (hard : Bool) : Block → Block
  | .text t => .text (if hard then pruningPlaceholder else softTrimText t)
  | b => b

/-- Rewrites one message: only tool-result messages are touched. -/
def pruneMessage (hard : Bool) : Message → Message
  | .toolResult id name content isErr =>
      .toolResult id name (content.map (pruneBlock hard)) isErr
  | m => m

/-- `pruneOldToolResults(messages)`: in-place mutation of the messages
before the last 6 positions, modelled as rebuilding the array. -/
def pruneOldToolResults (ms : List Message) : List Message :=
  let pruneUpTo := ms.length - 6
  let hard : Bool := 50000 < oldToolChars ms
  (ms.take pruneUpTo).map (pruneMessage hard) ++ ms.drop pruneUpTo

/-! ## Tools (src/unnamed/part_017, src/src/lib/tools.ts)

Tool descriptors are modelled by their names (descriptions and parameter
schemas play no role in the claims).  The seven pi-coding-agent tools are
`read`, `edit`, `write`, `bash`, `grep`, `find`, `ls` (listed as such in
the system prompt of src/src/lib/context.ts). -/

structure Tool where
  name : String
deriving DecidableEq

def piToolNames : List String :=
  ["read", "edit", "write", "bash", "grep", "find", "ls"]

/-- `TOOLS`: main-agent registry, includes `delegate_task`. -/
def TOOLS : List Tool :=
  piToolNames.map Tool.mk ++ [⟨"remember"⟩, ⟨"web_fetch"⟩, ⟨"delegate_task"⟩]

/-- `SUB_AGENT_TOOLS`: sub-agent registry, without `delegate_task`. -/
def SUB_AGENT_TOOLS : List Tool :=
  piToolNames.map Tool.mk ++ [⟨"remember"⟩, ⟨"web_fetch"⟩]

structure ToolResult where
  result : String
  error : Bool := false
deriving DecidableEq

/-- The names `executeTool` dispatches to a tool body (pi tools via
`piToolMap`, plus the inline `remember` and `web_fetch` cases). -/
def knownExecNames : List String := piToolNames ++ ["remember", "web_fetch"]

/-- `executeTool(toolCallId, name, args)`: dispatch by name.  The outcome of
a known tool body (file system, shell, HTTP, daily-log append, including
the catch-all that turns a thrown exception into an error result) is the
oracle `ext`; an unknown name yields the error result built in the
`default` branch. -/
def executeTool (ext : ToolResult) (name : String) : ToolResult :=
  if knownExecNames.contains name then ext
  else { result := "Unknown tool: " ++ name, error := true }

/-! ## Agent loop (src/src/agent-loop.ts, createAgentLoop)

The loop is driven by the sequence of LLM responses of the run (the
`script`); tool executions, argument validation and sub-agent invocations
are oracles indexed by the running tool-call count.  `thinkCount` and
`subSpawns` instrument the number of `think` substeps and of sub-agent
`step.invoke` calls. -/

structure ToolCallRec where
  id : String
  name : String
  arguments : List (String × String)
deriving DecidableEq

/-- One `callLLM` result: stop reason, error message of the assistant
message (empty string when absent), extracted text, extracted tool calls,
and the full assistant message that the loop pushes into the conversation. -/
structure LLMResponse where
  stopReason : String
  errorMessage : String
  text : String
  toolCalls : List ToolCallRec
  message : Message
deriving DecidableEq

/-- `llmResponse.message.errorMessage || llmResponse.text || "Unknown LLM
error"` (empty strings are falsy in JavaScript). -/
def errMsgOf (r : LLMResponse) : String :=
  if r.errorMessage ≠ "" then r.errorMessage
  else if r.text ≠ "" then r.text
  else "Unknown LLM error"

/-- One alternative of the overflow regex: literal pieces separated by `.?`
(zero or one character that is not a line terminator). -/
def regexPieceMatches : List Char → List (List Char) → Bool
  | _, [] => true
  | cs, [lit] => lit.isPrefixOf cs
  | cs, lit :: lit' :: rest =>
      lit.isPrefixOf cs &&
        (let cs' := cs.drop lit.length
         regexPieceMatches cs' (lit' :: rest)
           || (match cs' with
               | [] => false
               | c :: cs'' =>
                   (c ≠ '\n' && c ≠ '\r' && c.val ≠ 0x2028 && c.val ≠ 0x2029)
                     && regexPieceMatches cs'' (lit' :: rest)))

/-- Search: does any alternative match at any position. -/
def regexSearch (pats : List (List (List Char))) : List Char → Bool
  | [] => pats.any (fun p => regexPieceMatches [] p)
  | c :: rest =>
      pats.any (fun p => regexPieceMatches (c :: rest) p)
        || regexSearch pats rest

/-- The five alternatives of
`/context.?overflow|prompt.?too.?large|too many tokens|maximum context|token limit/i`
(already lower case; the `/i` flag lowercases the input below). -/
def overflowPatterns : List (List (List Char)) :=
  [ [("context".data), ("overflow".data)]
  , [("prompt".data), ("too".data), ("large".data)]
  , [("too many tokens".data)]
  , [("maximum context".data)]
  , [("token limit".data)] ]

/-- `isOverflow`: the overflow regex test on the error message (ASCII
case folding for the `/i` flag). -/
def isOverflowMsg (s : String) : Bool :=
  regexSearch overflowPatterns (s.data.map Char.toLower)

/-- One line of the emergency summary:
`ROLE: content.slice(0, 200)` for string content, the literal
`[complex content]` for block-array content. -/
def overflowSummaryLine (m : Message) : String :=
  jsUpper m.role ++ ": " ++
    (match m with
     | .user c => jsTake c 200
     | _ => jsTake "[complex content]" 200)

/-- The synthetic user message of the overflow recovery. -/
def overflowSummaryMessage (toSummarize : List Message) : Message :=
  .user ("[Previous conversation was too long and has been summarized]\n\n"
    ++ jsTake (joinNewline (toSummarize.map overflowSummaryLine)) 2000)

/-- The emergency in-place compaction of the overflow recovery: keep the
last `min(6, length)` messages; when anything remains before them, replace
it with the single synthetic summary message. -/
def emergencyCompact (ms : List Message) : List Message :=
  let keepCount := min 6 ms.length
  let toSummarize := ms.take (ms.length - keepCount)
  let toKeep := ms.drop (ms.length - keepCount)
  if toSummarize.length = 0 then ms
  else overflowSummaryMessage toSummarize :: toKeep

structure LoopCfg where
  maxIterations : Nat := configMaxIterations
  isSubAgent : Bool := false
  tools : List Tool := TOOLS

structure LoopState where
  messages : List Message
  iterations : Nat
  totalToolCalls : Nat
  hasCompacted : Bool
  thinkCount : Nat
  subSpawns : Nat
deriving DecidableEq

/-- Oracles for the effects of one run: `extTool n` is the body outcome of
the n-th tool execution (counting by `totalToolCalls`), `validationError n`
a thrown `validateToolArguments` error for that call (`none` when
validation passes or the tool is not in the registry), `subAgent n` the
outcome of a sub-agent `step.invoke` (`Except.error` when the child run
fails). -/
structure Oracles where
  extTool : Nat → ToolResult
  validationError : Nat → Option String
  subAgent : Nat → Except String String

inductive ExecOut
  | ok (st : LoopState)
  | err (msg : String) (st : LoopState)
deriving DecidableEq

def ExecOut.state : ExecOut → LoopState
  | .ok st => st
  | .err _ st => st

/-- The body of `for (const tc of toolCalls)` for one tool call:
increment `totalToolCalls`, then either invoke the sub-agent function
(`delegate_task` on a main agent) or validate and execute the tool, and
append the tool-result message. -/
def execOneTool (cfg : LoopCfg) (or : Oracles) (tc : ToolCallRec)
    (st : LoopState) : ExecOut :=
  let idx := st.totalToolCalls
  let st1 := { st with totalToolCalls := st.totalToolCalls + 1 }
  if tc.name = "delegate_task" && !cfg.isSubAgent then
    match or.subAgent idx with
    | .error e => .err e st1
    | .ok resp =>
        let text := if resp = "" then "(Sub-agent returned no response)" else resp
        .ok { st1 with
              messages := st1.messages ++ [.toolResult tc.id tc.name [.text text] false]
              subSpawns := st1.subSpawns + 1 }
  else
    match (if cfg.tools.any (fun t => t.name = tc.name)
           then or.validationError idx else none) with
    | some e => .err e st1
    | none =>
        let r := executeTool (or.extTool idx) tc.name
        .ok { st1 with
              messages := st1.messages ++ [.toolResult tc.id tc.name [.text r.result] r.error] }

/-- Sequential execution of the tool calls of one iteration. -/
def execToolCalls (cfg : LoopCfg) (or : Oracles) :
    List ToolCallRec → LoopState → ExecOut
  | [], st => .ok st
  | tc :: rest, st =>
      match execOneTool cfg or tc st with
      | .err e st' => .err e st'
      | .ok st' => execToolCalls cfg or rest st'

inductive StepResult
  | next (st : LoopState)
  | finished (response : String) (st : LoopState)
  | thrown (msg : String) (st : LoopState)
deriving DecidableEq

def StepResult.state : StepResult → LoopState
  | .next st => st
  | .finished _ st => st
  | .thrown _ st => st

/-- One pass of the while loop, given the response `r` of its `think`
substep: increment `iterations`, prune when `iterations >
keepLastAssistantTurns`, call the LLM (the budget warning only extends the
copy sent to the LLM, so it does not change the state), then handle the
error / tool-call / text cases. -/
def loopStep (cfg : LoopCfg) (or : Oracles) (r : LLMResponse)
    (st : LoopState) : StepResult :=
  let it := st.iterations + 1
  let msgs := if 3 < it then pruneOldToolResults st.messages else st.messages
  let st1 : LoopState :=
    { st with iterations := it, messages := msgs, thinkCount := st.thinkCount + 1 }
  if r.stopReason = "error" then
    let e := errMsgOf r
    if isOverflowMsg e && !st1.hasCompacted then
      .next { st1 with
              messages := emergencyCompact st1.messages
              hasCompacted := true
              iterations := st1.iterations - 1 }
    else .thrown ("LLM error: " ++ e) st1
  else if r.toolCalls ≠ [] then
    match execToolCalls cfg or r.toolCalls
        { st1 with messages := st1.messages ++ [r.message] } with
    | .err e st2 => .thrown e st2
    | .ok st2 => .next st2
  else if r.text ≠ "" then .finished r.text st1
  else .next st1

structure AgentRunResult where
  response : String
  iterations : Nat
  toolCalls : Nat
  model : String
deriving DecidableEq

inductive RunOutcome
  | ok (res : AgentRunResult) (st : LoopState)
  | raised (msg : String) (st : LoopState)
  | outOfScript (st : LoopState)
deriving DecidableEq

def RunOutcome.state : RunOutcome → LoopState
  | .ok _ st => st
  | .raised _ st => st
  | .outOfScript st => st

/-- The fallback response when the loop budget is exhausted. -/
def maxedResponse (cfg : LoopCfg) : String :=
  "(Reached max iterations: " ++ natToDec cfg.maxIterations ++ ")"

/-- The while loop: runs passes while `!done && iterations <
maxIterations`, consuming one scripted LLM response per pass;
`outOfScript` marks a run that would need a further response. -/
def loopGo (cfg : LoopCfg) (or : Oracles) :
    List LLMResponse → LoopState → RunOutcome
  | [], st =>
      if st.iterations < cfg.maxIterations then .outOfScript st
      else .ok ⟨maxedResponse cfg, st.iterations, st.totalToolCalls, modelString⟩ st
  | r :: rest, st =>
      if st.iterations < cfg.maxIterations then
        match loopStep cfg or r st with
        | .next st' => loopGo cfg or rest st'
        | .finished resp st' =>
            .ok ⟨resp, st'.iterations, st'.totalToolCalls, modelString⟩ st'
        | .thrown m st' => .raised m st'
      else .ok ⟨maxedResponse cfg, st.iterations, st.totalToolCalls, modelString⟩ st

def initLoopState (msgs : List Message) : LoopState := ⟨msgs, 0, 0, false, 0, 0⟩

/-- A whole run of the loop body from the initial message array (history
plus the incoming user message). -/
def runLoop (cfg : LoopCfg) (or : Oracles) (script : List LLMResponse)
    (msgs : List Message) : RunOutcome :=
  loopGo cfg or script (initLoopState msgs)

/-- The loop configuration of a sub-agent run
(src/src/functions/sub-agent.ts): restricted tools and `isSubAgent = true`. -/
def subAgentLoopCfg : LoopCfg :=
  { maxIterations := configMaxIterations, isSubAgent := true, tools := SUB_AGENT_TOOLS }

/-! ## Message handler (src/src/functions/message.ts, handleMessage)

`handleMessage` appends the incoming user message, runs the agent loop
(whose `AgentRunResult` is the oracle `run`), appends the assistant
response with iteration/tool-call metadata, and emits `agent.reply.ready`
only when the event data carries a destination. -/

structure Destination where
  chatId : String
  messageId : Option String := none
  threadId : Option String := none
deriving DecidableEq

structure AgentMessageData where
  message : String
  sessionKey : Option String := none
  channel : Option String := none
  destination : Option Destination := none
deriving DecidableEq

structure ReplyReadyEvent where
  response : String
  channel : String
  destination : Destination
deriving DecidableEq

/-- The session key after the destructuring default `sessionKey = "main"`. -/
def AgentMessageData.effectiveSessionKey (d : AgentMessageData) : String :=
  d.sessionKey.getD "main"

/-- `handleMessage`: returns the session store after the two appends, the
emitted `agent.reply.ready` events, and the function return value.
`ts1`, `ts2` are the timestamps of the two appends. -/
def handleMessage (run : AgentRunResult) (ts1 ts2 : String)
    (data : AgentMessageData) (store : SessionStore) :
    SessionStore × List ReplyReadyEvent × AgentRunResult :=
  let sessionKey := data.effectiveSessionKey
  let channel := data.channel.getD "unknown"
  let store1 := appendToSession store sessionKey "user" data.message none ts1
  let store2 := appendToSession store1 sessionKey "assistant" run.response
      (some ⟨run.iterations, run.toolCalls⟩) ts2
  let events :=
    match data.destination with
    | some d => [ReplyReadyEvent.mk run.response channel d]
    | none => []
  (store2, events, run)

/-! ## Heartbeat (src/src/functions/heartbeat.ts)

The adaptive check and the shape of the run; daily logs are indexed by
days-ago (`dayLog 0` is today, the empty string models an absent file),
the `last_heartbeat` marker is the oracle `lastHeartbeatMs` (`none` when
the marker is missing, in which case `hoursSinceLast` is `Infinity`). -/

def LOG_SIZE_THRESHOLD : Nat := 4096
def MAX_HOURS_BETWEEN : Nat := 8
def DAYS_TO_REVIEW : Nat := 7

structure HeartbeatEnv where
  dayLog : Nat → String
  lastHeartbeatMs : Option Nat
  nowMs : Nat

/-- `shouldDistill = logSize > LOG_SIZE_THRESHOLD || hoursSinceLast >
MAX_HOURS_BETWEEN`; the float comparison
`(now - last) / 3600000 > 8` holds iff `now - last > 28800000`
milliseconds, and a marker in the future gives a negative difference
(never greater than 8), matching truncated subtraction. -/
def heartbeatShouldDistill (env : HeartbeatEnv) : Bool :=
  decide (LOG_SIZE_THRESHOLD < utf8Len (env.dayLog 0))
    || (match env.lastHeartbeatMs with
        | none => true
        | some t => decide (MAX_HOURS_BETWEEN * 3600000 < env.nowMs - t))

/-- The non-blank daily logs of the last `DAYS_TO_REVIEW` days collected by
the load-memory-context step (a log enters iff `log.trim()` is truthy). -/
def heartbeatNonEmptyLogs (env : HeartbeatEnv) : List String :=
  ((List.range DAYS_TO_REVIEW).map env.dayLog).filter (fun l => jsTrim l ≠ "")

structure HeartbeatResult where
  status : String
  llmCalls : Nat
deriving DecidableEq

/-- The control flow of one heartbeat run, instrumented with the number of
LLM gateway calls: early exit when the check says no, a second skip when no
non-empty logs were found, otherwise the single distillation `callLLM`. -/
def heartbeatRun (env : HeartbeatEnv) : HeartbeatResult :=
  if heartbeatShouldDistill env = false then ⟨"skipped", 0⟩
  else if (heartbeatNonEmptyLogs env).length = 0 then ⟨"skipped", 0⟩
  else ⟨"distilled", 1⟩

/-! ## Helper lemmas -/

theorem natSum_mem_le {l : List Nat} {a : Nat} (h : a ∈ l) : a ≤ l.sum := by
  induction l with
  | nil => cases h
  | cons b bs ih =>
      rcases List.mem_cons.mp h with h | h
      · subst h; simp [List.sum_cons]
      · calc a ≤ bs.sum := ih h
             _ ≤ b + bs.sum := Nat.le_add_left _ _
             _ = (b :: bs).sum := by simp [List.sum_cons]

theorem natSum_map_le {α : Type} {l : List α} {f g : α → Nat}
    (h : ∀ a ∈ l, f a ≤ g a) : (l.map f).sum ≤ (l.map g).sum := by
  induction l with
  | nil => simp
  | cons b bs ih =>
      simp only [List.map_cons, List.sum_cons]
      exact Nat.add_le_add (h b (by simp))
        (ih (fun a ha => h a (List.mem_cons_of_mem _ ha)))

theorem foldl_add_eq_sum {α : Type} (f : α → Nat) :
    ∀ (l : List α) (n : Nat), l.foldl (fun s a => s + f a) n = n + (l.map f).sum := by
  intro l
  induction l with
  | nil => intro n; simp
  | cons b bs ih =>
      intro n
      simp only [List.foldl_cons, List.map_cons, List.sum_cons, ih]
      omega

theorem decGo_length_le :
    ∀ (fuel n : Nat) (acc : List Char) (k : Nat), n < 10 ^ k → 1 ≤ k →
      (decGo fuel n acc).length ≤ acc.length + k := by
  intro fuel
  induction fuel with
  | zero =>
      intro n acc k _ _
      simp only [decGo]
      omega
  | succ fuel ih =>
      intro n acc k hn hk
      simp only [decGo]
      by_cases h0 : n / 10 = 0
      · rw [if_pos h0]
        simp only [List.length_cons]
        omega
      · rw [if_neg h0]
        have h10 : 10 ≤ n := by
          by_contra hlt
          exact h0 (Nat.div_eq_of_lt (by omega))
        have hk2 : 2 ≤ k := by
          by_contra hlt
          have hk1 : k = 1 := by omega
          rw [hk1, pow_one] at hn
          omega
        have hdiv : n / 10 < 10 ^ (k - 1) := by
          rw [Nat.div_lt_iff_lt_mul (by norm_num)]
          calc n < 10 ^ k := hn
            _ = 10 ^ (k - 1) * 10 := by
                rw [← pow_succ]
                congr 1
                omega
        have := ih (n / 10) (Nat.digitChar (n % 10) :: acc) (k - 1) hdiv (by omega)
        simp only [List.length_cons] at this
        omega

theorem natToDec_length_le {n k : Nat} (hn : n < 10 ^ k) (hk : 1 ≤ k) :
    (natToDec n).length ≤ k := by
  have := decGo_length_le (n + 1) n [] k hn hk
  simpa [natToDec, strLength_mk] using this

/-! ## C10 -/

/-- C10: for every `agent.message.received` event whose data carries no
destination, `handleMessage` still appends the incoming user record and the
assistant response record (with iterations and toolCalls metadata) to the
session and returns the run result, but emits no `agent.reply.ready`
event. -/
theorem handleMessage_no_destination (run : AgentRunResult) (ts1 ts2 : String)
    (data : AgentMessageData) (store : SessionStore)
    (h : data.destination = none) :
    (handleMessage run ts1 ts2 data store).2.1 = []
    ∧ (handleMessage run ts1 ts2 data store).2.2 = run
    ∧ (handleMessage run ts1 ts2 data store).1 data.effectiveSessionKey
        = store data.effectiveSessionKey
          ++ [⟨"user", data.message, ts1, none⟩,
              ⟨"assistant", run.response, ts2, some ⟨run.iterations, run.toolCalls⟩⟩]
    ∧ (∀ k, k ≠ data.effectiveSessionKey →
        (handleMessage run ts1 ts2 data store).1 k = store k) := by
  unfold handleMessage appendToSession
  refine ⟨by simp [h], rfl, ?_, ?_⟩
  · simp
  · intro k hk
    simp [hk]

/-- Witness for C10 at a concrete event without destination. -/
theorem handleMessage_no_destination_witness :
    (handleMessage ⟨"hi", 1, 0, "m"⟩ "t1" "t2" ⟨"hello", none, none, none⟩
        (fun _ => [])).2.1 = []
    ∧ (handleMessage ⟨"hi", 1, 0, "m"⟩ "t1" "t2" ⟨"hello", none, none, none⟩
        (fun _ => [])).1 "main"
      = [⟨"user", "hello", "t1", none⟩, ⟨"assistant", "hi", "t2", some ⟨1, 0⟩⟩] := by
  have h := handleMessage_no_destination ⟨"hi", 1, 0, "m"⟩ "t1" "t2"
    ⟨"hello", none, none, none⟩ (fun _ => []) rfl
  exact ⟨h.1, by simpa using h.2.2.1⟩

/-! ## C8 -/

/-- The quiet environment: empty logs for every day, a heartbeat marker 10
hours old. -/
def hbEnvQuiet : HeartbeatEnv := ⟨fun _ => "", some 0, 36000000⟩

/-- C8 counterexample: with all daily logs empty and the last heartbeat 10
hours ago, the distillation condition of the claim holds (more than 8 hours
elapsed) yet the run exits with a skipped status and performs no LLM
call. -/
theorem heartbeat_claim_counterexample :
    heartbeatShouldDistill hbEnvQuiet = true
    ∧ heartbeatRun hbEnvQuiet = ⟨"skipped", 0⟩ := by
  constructor <;> decide

/-- C8 (amended): a heartbeat run performs the distillation LLM call iff
the adaptive check passes (log size above threshold, or more than 8 hours
since the marker, or marker missing) **and** at least one of the last 7
daily logs is non-blank; in every other case it exits with a skipped
status and no LLM call. -/
theorem heartbeat_llm_iff (env : HeartbeatEnv) :
    ((heartbeatRun env).llmCalls = 1
      ↔ heartbeatShouldDistill env = true ∧ (heartbeatNonEmptyLogs env).length ≠ 0)
    ∧ ((heartbeatRun env).llmCalls = 0 ↔ (heartbeatRun env).status = "skipped")
    ∧ ((heartbeatRun env).llmCalls = 1 ↔ (heartbeatRun env).status = "distilled") := by
  unfold heartbeatRun
  by_cases h1 : heartbeatShouldDistill env = false
  · rw [if_pos h1]
    exact ⟨by simp [h1], by decide, by decide⟩
  · have h1' : heartbeatShouldDistill env = true := by
      revert h1; cases heartbeatShouldDistill env <;> simp
    rw [if_neg h1]
    by_cases h2 : (heartbeatNonEmptyLogs env).length = 0
    · rw [if_pos h2]
      exact ⟨by simp [h2], by decide, by decide⟩
    · rw [if_neg h2]
      exact ⟨by simp [h1', h2], by decide, by decide⟩

/-- Witness for C8 (amended) at an environment that distills: the marker is
missing and the daily log of today is non-blank. -/
theorem heartbeat_llm_iff_witness :
    (heartbeatRun ⟨fun _ => "x", none, 0⟩).llmCalls = 1 := by
  exact (heartbeat_llm_iff ⟨fun _ => "x", none, 0⟩).1.mpr ⟨by decide, by decide⟩

/-! ## C7 -/

/-- A parser oracle for `JSON.parse`: the malformed middle line throws,
every other line yields a record (braces are escaped as \x7b and \x7d). -/
def parseCE : String → Option SessionMessage := fun l =>
  if l = "\x7bbad" then none else some ⟨"user", l, "", none⟩

def contentCE : String := "\x7b\"a\":1\x7d\n\x7bbad\n\x7b\"b\":2\x7d"

/-- C7 counterexample: a session file with one malformed line between two
well-formed lines loads as the empty list — the malformed line is not
skipped, the whole load aborts (the well-formed records, shown on the
right, are lost). -/
theorem loadSession_claim_counterexample :
    loadSession parseCE (some contentCE) 20 = []
    ∧ ((jsSplitNewline (jsTrim contentCE)).filter (fun l => l ≠ "")).filterMap parseCE
        = [⟨"user", "\x7b\"a\":1\x7d", "", none⟩,
           ⟨"user", "\x7b\"b\":2\x7d", "", none⟩] := by
  constructor <;> decide

theorem parseAllLines_eq_none_of_mem (parse : String → Option SessionMessage) :
    ∀ (ls : List String) (l : String), l ∈ ls → parse l = none →
      parseAllLines parse ls = none := by
  intro ls
  induction ls with
  | nil => intro l h; cases h
  | cons x xs ih =>
      intro l hmem hnone
      rcases List.mem_cons.mp hmem with h | h
      · subst h
        simp [parseAllLines, hnone]
      · unfold parseAllLines
        cases parse x with
        | none => rfl
        | some m => rw [ih l h hnone]; rfl

/-- C7 (amended): `loadSession` returns the empty list when the session
file is absent (not an error); when the file is present it returns the last
`maxMessages` parsed records in insertion order if **every** non-empty line
parses, and returns the empty list as soon as **any** line is malformed —
one bad line aborts the whole load (the error is swallowed, nothing is
skipped line-by-line). -/
theorem loadSession_amended (parse : String → Option SessionMessage)
    (maxMessages : Nat) :
    loadSession parse none maxMessages = []
    ∧ (∀ content,
        (∀ l ∈ (jsSplitNewline (jsTrim content)).filter (fun l => l ≠ ""),
            parse l = none →
          loadSession parse (some content) maxMessages = [])
        ∧ (∀ msgs,
            parseAllLines parse
                ((jsSplitNewline (jsTrim content)).filter (fun l => l ≠ "")) = some msgs →
            loadSession parse (some content) maxMessages = jsSliceLast maxMessages msgs)) := by
  refine ⟨rfl, ?_⟩
  intro content
  constructor
  · intro l hl hnone
    have h := parseAllLines_eq_none_of_mem parse _ l hl hnone
    simp only [loadSession]
    rw [h]
  · intro msgs hsome
    simp only [loadSession]
    rw [hsome]

/-- Witness for C7 (amended) on a well-formed two-line file. -/
theorem loadSession_amended_witness :
    loadSession parseCE (some "x\ny") 20
      = [⟨"user", "x", "", none⟩, ⟨"user", "y", "", none⟩] := by
  have h := ((loadSession_amended parseCE 20).2 "x\ny").2
    [⟨"user", "x", "", none⟩, ⟨"user", "y", "", none⟩] (by decide)
  rw [h]
  decide

/-! ## C4 -/

/-- Per-message token estimate, stated over a variable character count (so
that concrete instances with large contents rewrite without evaluating the
content). -/
theorem estimateMessageTokens_eq (m : SessionMessage) (n : Nat)
    (h : m.content.length = n) : estimateMessageTokens m = (n + 3) / 4 := by
  unfold estimateMessageTokens
  rw [h]

theorem specEstimateMessageTokens_eq (m : SessionMessage) (n : Nat)
    (h : utf8Len m.content = n) : specEstimateMessageTokens m = (n + 3) / 4 := by
  unfold specEstimateMessageTokens
  rw [h]

theorem estimateTokens_singleton (m : SessionMessage) :
    estimateTokens [m] = estimateMessageTokens m := by
  unfold estimateTokens
  simp

theorem map_sum_singleton (f : SessionMessage → Nat) (m : SessionMessage) :
    ([m].map f).sum = f m := by
  simp

theorem shouldCompact_false_iff (ms : List SessionMessage) :
    shouldCompact ms = false ↔ ¬ configCompactionLimit < estimateTokens ms := by
  unfold shouldCompact
  simp

theorem specShouldCompact_true_iff (ms : List SessionMessage) :
    specShouldCompact ms = true
      ↔ configCompactionLimit < (ms.map specEstimateMessageTokens).sum := by
  unfold specShouldCompact
  simp

/-- A session message whose content is 240004 copies of a two-byte
character: its character count is 240004 (code estimate 60001 tokens) but
its UTF-8 byte count is 480008 (spec estimate 120002 tokens). -/
def bigMsg : SessionMessage := ⟨"user", ⟨List.replicate 240004 'é'⟩, "", none⟩

theorem bigMsg_content_length : bigMsg.content.length = 240004 := by
  show String.length ⟨List.replicate 240004 'é'⟩ = 240004
  rw [strLength_mk, List.length_replicate]

theorem bigMsg_utf8Len : utf8Len bigMsg.content = 480008 := by
  show utf8Len ⟨List.replicate 240004 'é'⟩ = 480008
  unfold utf8Len
  have h2 : Char.utf8Size 'é' = 2 := by decide
  show ((List.replicate 240004 'é').map Char.utf8Size).sum = 480008
  rw [List.map_replicate, h2, List.sum_replicate, smul_eq_mul]

/-- C4 counterexample: on a single message of 240004 two-byte characters,
the byte-based estimate of the claim exceeds the 120000 threshold while
the source (which counts characters via `msg.content.length`) stays below
it, so `shouldCompact` returns false where the claim requires true. -/
theorem shouldCompact_claim_counterexample :
    shouldCompact [bigMsg] = false ∧ specShouldCompact [bigMsg] = true := by
  have hcode : estimateTokens [bigMsg] = 60001 := by
    rw [estimateTokens_singleton,
      estimateMessageTokens_eq bigMsg 240004 bigMsg_content_length]
  have hspec : ([bigMsg].map specEstimateMessageTokens).sum = 120002 := by
    rw [map_sum_singleton,
      specEstimateMessageTokens_eq bigMsg 480008 bigMsg_utf8Len]
  constructor
  · rw [shouldCompact_false_iff, hcode]
    unfold configCompactionLimit
    omega
  · rw [specShouldCompact_true_iff, hspec]
    unfold configCompactionLimit
    omega

/-- C4 (amended): `shouldCompact(messages)` returns true iff the sum over
all messages of `ceil(charLength(content) / 4)` exceeds `maxTokens *
threshold = 150000 * 0.8 = 120000`, where `charLength` is the JavaScript
string length of the content (its character count), not its UTF-8 byte
length. -/
theorem shouldCompact_amended (ms : List SessionMessage) :
    shouldCompact ms = true
      ↔ 120000 < (ms.map (fun m => (m.content.length + 3) / 4)).sum := by
  unfold shouldCompact estimateTokens configCompactionLimit
  rw [foldl_add_eq_sum]
  rw [show estimateMessageTokens = fun m => (m.content.length + 3) / 4 from rfl]
  simp

/-- Witness for C4 (amended) at a concrete short message. -/
theorem shouldCompact_amended_witness :
    shouldCompact [⟨"user", "abcd", "", none⟩] = false := by
  cases hb : shouldCompact [⟨"user", "abcd", "", none⟩] with
  | false => rfl
  | true =>
      exact absurd ((shouldCompact_amended [⟨"user", "abcd", "", none⟩]).mp hb)
        (by decide)

/-! ## C3 -/

/-- C3: `runCompaction` returns the messages unchanged (and leaves the
session store untouched) when the `keepRecentTokens` walk would leave at
most one message to summarize; otherwise it returns the synthetic user
summary message followed by exactly the kept suffix
`messages[cutIndex..]`, in order, and persists that same compacted list to
the session. -/
theorem runCompaction_spec (summaryText now sessionKey : String)
    (ms : List SessionMessage) (store : SessionStore) :
    (compactionCutIndex ms ≤ 1 →
        runCompaction summaryText now ms sessionKey store = (ms, store))
    ∧ (1 < compactionCutIndex ms →
        (runCompaction summaryText now ms sessionKey store).1
            = mkCompactionSummaryMessage summaryText now
                :: ms.drop (compactionCutIndex ms)
          ∧ (mkCompactionSummaryMessage summaryText now).role = "user"
          ∧ (runCompaction summaryText now ms sessionKey store).2 sessionKey
              = (runCompaction summaryText now ms sessionKey store).1
          ∧ (∀ k, k ≠ sessionKey →
              (runCompaction summaryText now ms sessionKey store).2 k = store k)) := by
  constructor
  · intro h
    unfold runCompaction
    rw [if_pos h]
  · intro h
    have h' : ¬ compactionCutIndex ms ≤ 1 := by omega
    unfold runCompaction
    rw [if_neg h']
    refine ⟨rfl, rfl, by simp, ?_⟩
    intro k hk
    simp [hk]

/-- One unfolding step of the backwards walk, stated over variables. -/
theorem compactionTailCount_cons (keep : Nat) (m : SessionMessage)
    (rest : List SessionMessage) (acc : Nat) :
    compactionTailCount keep (m :: rest) acc
      = if keep ≤ acc + estimateMessageTokens m then some 1
        else (compactionTailCount keep rest (acc + estimateMessageTokens m)).map
          (fun s => s + 1) := rfl

def msWlast : SessionMessage := ⟨"user", ⟨List.replicate 80000 'a'⟩, "", none⟩

/-- A conversation whose last message alone carries 20000 estimated tokens,
so the tail walk cuts at index 3. -/
def msW : List SessionMessage :=
  [⟨"user", "a", "", none⟩, ⟨"assistant", "b", "", none⟩,
   ⟨"user", "c", "", none⟩, msWlast]

theorem msWlast_content_length : msWlast.content.length = 80000 := by
  show String.length ⟨List.replicate 80000 'a'⟩ = 80000
  rw [strLength_mk, List.length_replicate]

theorem estimate_msWlast : estimateMessageTokens msWlast = 20000 := by
  rw [estimateMessageTokens_eq msWlast 80000 msWlast_content_length]

theorem compactionCutIndex_last_heavy (m : SessionMessage)
    (pre : List SessionMessage)
    (h : configKeepRecentTokens ≤ estimateMessageTokens m) :
    compactionCutIndex (pre ++ [m]) = pre.length := by
  unfold compactionCutIndex
  simp only [List.reverse_append, List.reverse_cons, List.reverse_nil, List.nil_append,
    List.singleton_append]
  rw [compactionTailCount_cons]
  rw [if_pos (by omega : configKeepRecentTokens ≤ 0 + estimateMessageTokens m)]
  simp [List.length_append]

theorem cutIndex_msW : compactionCutIndex msW = 3 := by
  have h := compactionCutIndex_last_heavy msWlast
      [⟨"user", "a", "", none⟩, ⟨"assistant", "b", "", none⟩, ⟨"user", "c", "", none⟩]
      (by rw [estimate_msWlast]; decide)
  rw [show msW = [⟨"user", "a", "", none⟩, ⟨"assistant", "b", "", none⟩,
        ⟨"user", "c", "", none⟩] ++ [msWlast] from rfl]
  rw [h]
  rfl

/-- Witness for C3: on `msW` the cut index is 3, so compaction keeps the
last message verbatim behind the synthetic summary, and the store is
updated with the same list. -/
theorem runCompaction_spec_witness :
    (runCompaction "S" "T" msW "k" (fun _ => [])).1
      = mkCompactionSummaryMessage "S" "T" :: [msWlast]
    ∧ (runCompaction "S" "T" msW "k" (fun _ => [])).2 "k"
      = (runCompaction "S" "T" msW "k" (fun _ => [])).1 := by
  have h := (runCompaction_spec "S" "T" "k" msW (fun _ => [])).2
    (by rw [cutIndex_msW]; omega)
  refine ⟨?_, h.2.2.1⟩
  rw [h.1, cutIndex_msW]
  rfl

/-! ## C5 -/

/-- The pruned array, written as prefix-map plus untouched suffix. -/
theorem pruneOldToolResults_eq (ms : List Message) :
    pruneOldToolResults ms
      = (ms.take (ms.length - 6)).map
          (pruneMessage (decide (50000 < oldToolChars ms)))
        ++ ms.drop (ms.length - 6) := rfl

theorem pruneOldToolResults_length (ms : List Message) :
    (pruneOldToolResults ms).length = ms.length := by
  rw [pruneOldToolResults_eq]
  simp only [List.length_append, List.length_map, List.length_take, List.length_drop]
  omega

/-- Positional description of the pruned array. -/
theorem pruneOldToolResults_getElem (ms : List Message) (i : Nat) :
    (pruneOldToolResults ms)[i]?
      = if i < ms.length - 6
        then (ms[i]?).map (pruneMessage (decide (50000 < oldToolChars ms)))
        else ms[i]? := by
  rw [pruneOldToolResults_eq]
  have hlen : ((ms.take (ms.length - 6)).map
      (pruneMessage (decide (50000 < oldToolChars ms)))).length = ms.length - 6 := by
    simp only [List.length_map, List.length_take]
    omega
  by_cases h : i < ms.length - 6
  · rw [if_pos h, List.getElem?_append, if_pos (by rw [hlen]; exact h)]
    have ht : (ms.take (ms.length - 6))[i]? = ms[i]? := by
      simp [List.getElem?_take, h]
    rw [List.getElem?_map, ht]
  · rw [if_neg h, List.getElem?_append, if_neg (by rw [hlen]; exact h)]
    rw [hlen]
    simp only [List.getElem?_drop]
    congr 1
    omega

/-- C5: pruning changes only the text blocks of tool-result messages in
positions before `length - 2 * keepLastAssistantTurns = length - 6`: when
the total character count of those old tool-result texts exceeds 50000
every such text block becomes the hard-clear placeholder, otherwise every
such text block longer than 4000 characters is trimmed to
`head(1500) ++ marker(N) ++ tail(1500)` with `N = length - 3000`; every
other message and block is unchanged. -/
theorem pruneOldToolResults_spec (ms : List Message) :
    ((pruneOldToolResults ms).length = ms.length)
    ∧ (∀ i, ms.length - 6 ≤ i → (pruneOldToolResults ms)[i]? = ms[i]?)
    ∧ (∀ i m, i < ms.length - 6 → ms[i]? = some m → m.role ≠ "toolResult" →
        (pruneOldToolResults ms)[i]? = some m)
    ∧ (∀ i id nm blocks e, i < ms.length - 6 →
        ms[i]? = some (.toolResult id nm blocks e) →
        (pruneOldToolResults ms)[i]?
          = some (.toolResult id nm
              (blocks.map (pruneBlock (decide (50000 < oldToolChars ms)))) e))
    ∧ (∀ t, pruneBlock true (.text t) = .text pruningPlaceholder)
    ∧ (∀ t, t.length ≤ 4000 → pruneBlock false (.text t) = .text t)
    ∧ (∀ t, 4000 < t.length →
        pruneBlock false (.text t)
          = .text (jsTake t 1500 ++ "\n\n... [" ++ natToDec (t.length - 3000)
              ++ " chars trimmed] ...\n\n" ++ jsTakeRight t 1500))
    ∧ (∀ id nm args hard, pruneBlock hard (.toolCall id nm args) = .toolCall id nm args)
    ∧ (∀ s hard, pruneBlock hard (.thinking s) = .thinking s) := by
  refine ⟨pruneOldToolResults_length ms, ?_, ?_, ?_, ?_, ?_, ?_, ?_, ?_⟩
  · intro i hi
    rw [pruneOldToolResults_getElem, if_neg (by omega)]
  · intro i m hi hm hrole
    rw [pruneOldToolResults_getElem, if_pos hi, hm]
    show some (pruneMessage (decide (50000 < oldToolChars ms)) m) = some m
    cases m with
    | user c => rfl
    | assistant c => rfl
    | toolResult a b c d => exact absurd rfl hrole
  · intro i id nm blocks e hi hm
    rw [pruneOldToolResults_getElem, if_pos hi, hm]
    rfl
  · intro t; rfl
  · intro t ht
    show Block.text (softTrimText t) = Block.text t
    unfold softTrimText
    rw [if_neg (by omega)]
  · intro t ht
    show Block.text (softTrimText t) = _
    unfold softTrimText
    rw [if_pos ht]
  · intro id nm args hard; cases hard <;> rfl
  · intro s hard; cases hard <;> rfl

/-- A 7-message array whose single old message is a short tool result. -/
def msP : List Message :=
  [.toolResult "1" "read" [.text "hello"] false,
   .user "u1", .user "u2", .user "u3", .user "u4", .user "u5", .user "u6"]

/-- Witness for C5: on `msP` the old tool result (position 0 of 7) is in
the soft tier and its 5-character text is left unchanged. -/
theorem pruneOldToolResults_spec_witness :
    (pruneOldToolResults msP)[0]?
      = some (.toolResult "1" "read" [.text "hello"] false) := by
  have h := (pruneOldToolResults_spec msP).2.2.2.1 0 "1" "read" [.text "hello"] false
    (by decide) (by decide)
  rw [h]
  decide

/-! ## C6 -/

theorem softTrimText_eq_self_of_short (t : String) (h : t.length ≤ 4000) :
    softTrimText t = t := by
  unfold softTrimText
  rw [if_neg (by omega)]

theorem jsTake_length (s : String) (n : Nat) :
    (jsTake s n).length = min n s.length := by
  show String.length ⟨s.data.take n⟩ = _
  rw [strLength_mk, List.length_take]
  rfl

theorem jsTakeRight_length (s : String) (n : Nat) :
    (jsTakeRight s n).length = s.length - (s.length - n) := by
  show String.length ⟨s.data.drop (s.data.length - n)⟩ = _
  rw [strLength_mk, List.length_drop]
  rfl

/-- Under the soft tier a trimmed text is at most 3033 characters: the two
1500-character slices plus the marker, whose digit count is at most 5 for
texts of at most 50000 characters. -/
theorem softTrimText_length_le (t : String) (h4 : 4000 < t.length)
    (h5 : t.length ≤ 50000) : (softTrimText t).length ≤ 3033 := by
  unfold softTrimText
  rw [if_pos h4]
  have hd : (natToDec (t.length - 3000)).length ≤ 5 :=
    natToDec_length_le (k := 5) (by norm_num; omega) (by norm_num)
  have h1 : (jsTake t 1500).length = 1500 := by
    rw [jsTake_length]; omega
  have h2 : (jsTakeRight t 1500).length = 1500 := by
    rw [jsTakeRight_length]; omega
  have hm1 : ("\n\n... [" : String).length = 7 := by decide
  have hm2 : (" chars trimmed] ...\n\n" : String).length = 21 := by decide
  simp only [String.length_append, h1, h2, hm1, hm2]
  omega

theorem softTrimText_shrinks (t : String) (h5 : t.length ≤ 50000) :
    (softTrimText t).length ≤ t.length := by
  by_cases h4 : 4000 < t.length
  · have := softTrimText_length_le t h4 h5
    omega
  · rw [softTrimText_eq_self_of_short t (by omega)]

theorem softTrimText_idem (t : String) (h5 : t.length ≤ 50000) :
    softTrimText (softTrimText t) = softTrimText t := by
  by_cases h4 : 4000 < t.length
  · exact softTrimText_eq_self_of_short _
      ((softTrimText_length_le t h4 h5).trans (by norm_num))
  · rw [softTrimText_eq_self_of_short t (by omega),
      softTrimText_eq_self_of_short t (by omega)]

theorem pruningPlaceholder_short : pruningPlaceholder.length ≤ 4000 := by decide

/-- A second pruning pass (of either tier) leaves a hard-cleared block
unchanged. -/
theorem pruneBlock_absorb_hard (b : Bool) (blk : Block) :
    pruneBlock b (pruneBlock true blk) = pruneBlock true blk := by
  cases blk with
  | text t =>
      cases b with
      | false =>
          show Block.text (softTrimText pruningPlaceholder) = _
          rw [softTrimText_eq_self_of_short _ pruningPlaceholder_short]
          rfl
      | true => rfl
  | toolCall id nm args => cases b <;> rfl
  | thinking s => cases b <;> rfl

theorem pruneMessage_absorb_hard (b : Bool) (m : Message) :
    pruneMessage b (pruneMessage true m) = pruneMessage true m := by
  cases m with
  | user c => rfl
  | assistant c => rfl
  | toolResult id nm content e =>
      show Message.toolResult id nm ((content.map (pruneBlock true)).map (pruneBlock b)) e
        = Message.toolResult id nm (content.map (pruneBlock true)) e
      rw [List.map_map]
      congr 1
      exact List.map_congr_left (fun blk _ => pruneBlock_absorb_hard b blk)

theorem blockTextChars_pruneBlock_false_le (blk : Block)
    (h : blockTextChars blk ≤ 50000) :
    blockTextChars (pruneBlock false blk) ≤ blockTextChars blk := by
  cases blk with
  | text t => exact softTrimText_shrinks t h
  | toolCall id nm args => exact Nat.le_refl _
  | thinking s => exact Nat.le_refl _

theorem pruneBlock_absorb_soft (blk : Block) (h : blockTextChars blk ≤ 50000) :
    pruneBlock false (pruneBlock false blk) = pruneBlock false blk := by
  cases blk with
  | text t => show Block.text (softTrimText (softTrimText t)) = _
              rw [softTrimText_idem t h]
              rfl
  | toolCall id nm args => rfl
  | thinking s => rfl

theorem msgToolChars_pruneMessage_false_le (m : Message)
    (h : msgToolChars m ≤ 50000) :
    msgToolChars (pruneMessage false m) ≤ msgToolChars m := by
  cases m with
  | user c => exact Nat.le_refl _
  | assistant c => exact Nat.le_refl _
  | toolResult id nm content e =>
      show ((content.map (pruneBlock false)).map blockTextChars).sum
        ≤ (content.map blockTextChars).sum
      rw [List.map_map]
      refine natSum_map_le (fun blk hblk => ?_)
      refine blockTextChars_pruneBlock_false_le blk ?_
      exact (natSum_mem_le (List.mem_map_of_mem blockTextChars hblk)).trans h

theorem pruneMessage_absorb_soft (m : Message) (h : msgToolChars m ≤ 50000) :
    pruneMessage false (pruneMessage false m) = pruneMessage false m := by
  cases m with
  | user c => rfl
  | assistant c => rfl
  | toolResult id nm content e =>
      show Message.toolResult id nm ((content.map (pruneBlock false)).map (pruneBlock false)) e
        = Message.toolResult id nm (content.map (pruneBlock false)) e
      rw [List.map_map]
      congr 1
      refine List.map_congr_left (fun blk hblk => ?_)
      refine pruneBlock_absorb_soft blk ?_
      exact (natSum_mem_le (List.mem_map_of_mem blockTextChars hblk)).trans h

/-- C6: the pruner is idempotent — a second `pruneOldToolResults` pass
returns the array of the first pass unchanged. -/
theorem pruneOldToolResults_idem (ms : List Message) :
    pruneOldToolResults (pruneOldToolResults ms) = pruneOldToolResults ms := by
  have hk : (pruneOldToolResults ms).length - 6 = ms.length - 6 := by
    rw [pruneOldToolResults_length]
  have hplen : ((ms.take (ms.length - 6)).map
      (pruneMessage (decide (50000 < oldToolChars ms)))).length = ms.length - 6 := by
    simp only [List.length_map, List.length_take]
    omega
  have hpre : (pruneOldToolResults ms).take (ms.length - 6)
      = (ms.take (ms.length - 6)).map
          (pruneMessage (decide (50000 < oldToolChars ms))) := by
    rw [pruneOldToolResults_eq]
    exact List.take_left' hplen
  have hsuf : (pruneOldToolResults ms).drop (ms.length - 6)
      = ms.drop (ms.length - 6) := by
    rw [pruneOldToolResults_eq]
    exact List.drop_left' hplen
  have hmem0 : ¬ 50000 < oldToolChars ms →
      ∀ m ∈ ms.take (ms.length - 6), msgToolChars m ≤ 50000 := by
    intro hc m hm
    have h1 : msgToolChars m ≤ oldToolChars ms :=
      natSum_mem_le (List.mem_map_of_mem msgToolChars hm)
    omega
  have hT2 : ¬ 50000 < oldToolChars ms →
      oldToolChars (pruneOldToolResults ms) ≤ oldToolChars ms := by
    intro hc
    have hcf : (decide (50000 < oldToolChars ms)) = false := by
      simp [hc]
    unfold oldToolChars
    rw [pruneOldToolResults_length, hpre, List.map_map]
    refine natSum_map_le (fun m hm => ?_)
    show msgToolChars (pruneMessage (decide (50000 < oldToolChars ms)) m)
      ≤ msgToolChars m
    rw [hcf]
    exact msgToolChars_pruneMessage_false_le m (hmem0 hc m hm)
  rw [pruneOldToolResults_eq (pruneOldToolResults ms), hk, hpre, hsuf, List.map_map]
  generalize hb2 : (decide (50000 < oldToolChars (pruneOldToolResults ms))) = b2
  by_cases hc : 50000 < oldToolChars ms
  · have hct : (decide (50000 < oldToolChars ms)) = true := by
      simp [hc]
    rw [pruneOldToolResults_eq ms]
    congr 1
    rw [hct]
    exact List.map_congr_left (fun m _ => pruneMessage_absorb_hard b2 m)
  · have hcf : (decide (50000 < oldToolChars ms)) = false := by
      simp [hc]
    have hcf2 : b2 = false := by
      rw [← hb2]
      simp only [decide_eq_false_iff_not]
      have := hT2 hc
      omega
    rw [pruneOldToolResults_eq ms]
    congr 1
    rw [hcf, hcf2]
    exact List.map_congr_left (fun m hm =>
      pruneMessage_absorb_soft m (hmem0 hc m hm))

/-! ## Loop invariants (for C1, C2, C9) -/

theorem execOneTool_counters (cfg : LoopCfg) (orc : Oracles) (tc : ToolCallRec)
    (st : LoopState) :
    ((execOneTool cfg orc tc st).state.iterations = st.iterations)
    ∧ ((execOneTool cfg orc tc st).state.hasCompacted = st.hasCompacted)
    ∧ ((execOneTool cfg orc tc st).state.thinkCount = st.thinkCount)
    ∧ (cfg.isSubAgent = true →
        (execOneTool cfg orc tc st).state.subSpawns = st.subSpawns) := by
  simp only [execOneTool]
  split
  next hdel =>
    cases hsub : orc.subAgent st.totalToolCalls with
    | error e => simp [hsub, ExecOut.state]
    | ok resp =>
        simp only [hsub, ExecOut.state]
        refine ⟨by simp, by simp, by simp, fun hs => ?_⟩
        rw [hs] at hdel
        simp at hdel
  next hdel =>
    split
    · simp [ExecOut.state]
    · simp [ExecOut.state]

theorem execToolCalls_counters (cfg : LoopCfg) (orc : Oracles) :
    ∀ (tcs : List ToolCallRec) (st : LoopState),
      ((execToolCalls cfg orc tcs st).state.iterations = st.iterations)
      ∧ ((execToolCalls cfg orc tcs st).state.hasCompacted = st.hasCompacted)
      ∧ ((execToolCalls cfg orc tcs st).state.thinkCount = st.thinkCount)
      ∧ (cfg.isSubAgent = true →
          (execToolCalls cfg orc tcs st).state.subSpawns = st.subSpawns) := by
  intro tcs
  induction tcs with
  | nil => intro st; exact ⟨rfl, rfl, rfl, fun _ => rfl⟩
  | cons tc rest ih =>
      intro st
      have h1 := execOneTool_counters cfg orc tc st
      unfold execToolCalls
      cases hexec : execOneTool cfg orc tc st with
      | err e st' =>
          rw [hexec] at h1
          exact h1
      | ok st' =>
          rw [hexec] at h1
          have h2 := ih st'
          refine ⟨?_, ?_, ?_, fun hs => ?_⟩
          · rw [h2.1]; exact h1.1
          · rw [h2.2.1]; exact h1.2.1
          · rw [h2.2.2.1]; exact h1.2.2.1
          · rw [h2.2.2.2 hs]; exact h1.2.2.2 hs

theorem loopStep_inv (cfg : LoopCfg) (orc : Oracles) (r : LLMResponse)
    (st : LoopState)
    (hlt : st.iterations < cfg.maxIterations)
    (hinv : st.thinkCount = st.iterations + (if st.hasCompacted then 1 else 0)) :
    ((loopStep cfg orc r st).state.thinkCount
        = (loopStep cfg orc r st).state.iterations
          + (if (loopStep cfg orc r st).state.hasCompacted then 1 else 0))
    ∧ (loopStep cfg orc r st).state.iterations ≤ cfg.maxIterations
    ∧ (cfg.isSubAgent = true →
        (loopStep cfg orc r st).state.subSpawns = st.subSpawns) := by
  simp only [loopStep]
  split
  next herr =>
    split
    next hov =>
      simp only [Bool.and_eq_true, Bool.not_eq_true'] at hov
      refine ⟨?_, ?_, fun _ => rfl⟩
      · simp only [StepResult.state]
        rw [hov.2] at hinv
        simp at hinv
        simp
        omega
      · simp only [StepResult.state]
        omega
    next hov =>
      refine ⟨?_, ?_, fun _ => rfl⟩
      · simp only [StepResult.state]
        cases hb : st.hasCompacted <;> rw [hb] at hinv <;> simp at hinv ⊢ <;> omega
      · simp only [StepResult.state]
        omega
  next herr =>
    split
    next htc =>
      cases heq : execToolCalls cfg orc r.toolCalls
          ⟨(if 3 < st.iterations + 1
              then pruneOldToolResults st.messages else st.messages) ++ [r.message],
            st.iterations + 1, st.totalToolCalls, st.hasCompacted,
            st.thinkCount + 1, st.subSpawns⟩ with
      | err e st2 =>
          have h := execToolCalls_counters cfg orc r.toolCalls
            ⟨(if 3 < st.iterations + 1
                then pruneOldToolResults st.messages else st.messages) ++ [r.message],
              st.iterations + 1, st.totalToolCalls, st.hasCompacted,
              st.thinkCount + 1, st.subSpawns⟩
          rw [heq] at h
          simp only [ExecOut.state] at h
          rcases h with ⟨hi, hc, hk, hsp⟩
          simp only [heq, StepResult.state]
          refine ⟨?_, ?_, fun hs => ?_⟩
          · rw [hk, hi]
            simp only [hc]
            cases hb : st.hasCompacted <;> rw [hb] at hinv <;> simp at hinv ⊢ <;> omega
          · rw [hi]
            omega
          · exact hsp hs
      | ok st2 =>
          have h := execToolCalls_counters cfg orc r.toolCalls
            ⟨(if 3 < st.iterations + 1
                then pruneOldToolResults st.messages else st.messages) ++ [r.message],
              st.iterations + 1, st.totalToolCalls, st.hasCompacted,
              st.thinkCount + 1, st.subSpawns⟩
          rw [heq] at h
          simp only [ExecOut.state] at h
          rcases h with ⟨hi, hc, hk, hsp⟩
          simp only [heq, StepResult.state]
          refine ⟨?_, ?_, fun hs => ?_⟩
          · rw [hk, hi]
            simp only [hc]
            cases hb : st.hasCompacted <;> rw [hb] at hinv <;> simp at hinv ⊢ <;> omega
          · rw [hi]
            omega
          · exact hsp hs
    next htc =>
      split
      next htext =>
        refine ⟨?_, ?_, fun _ => rfl⟩
        · simp only [StepResult.state]
          cases hb : st.hasCompacted <;> rw [hb] at hinv <;> simp at hinv ⊢ <;> omega
        · simp only [StepResult.state]
          omega
      next htext =>
        refine ⟨?_, ?_, fun _ => rfl⟩
        · simp only [StepResult.state]
          cases hb : st.hasCompacted <;> rw [hb] at hinv <;> simp at hinv ⊢ <;> omega
        · simp only [StepResult.state]
          omega

theorem loopGo_inv (cfg : LoopCfg) (orc : Oracles) :
    ∀ (script : List LLMResponse) (st : LoopState),
      st.thinkCount = st.iterations + (if st.hasCompacted then 1 else 0) →
      st.iterations ≤ cfg.maxIterations →
      (((loopGo cfg orc script st).state.thinkCount
          = (loopGo cfg orc script st).state.iterations
            + (if (loopGo cfg orc script st).state.hasCompacted then 1 else 0))
        ∧ (loopGo cfg orc script st).state.iterations ≤ cfg.maxIterations
        ∧ (cfg.isSubAgent = true →
            (loopGo cfg orc script st).state.subSpawns = st.subSpawns)) := by
  intro script
  induction script with
  | nil =>
      intro st h1 h2
      unfold loopGo
      split
      · exact ⟨h1, h2, fun _ => rfl⟩
      · exact ⟨h1, h2, fun _ => rfl⟩
  | cons r rest ih =>
      intro st h1 h2
      unfold loopGo
      split
      next hlt =>
        have hstep := loopStep_inv cfg orc r st hlt h1
        split
        next st' hm =>
          rw [hm] at hstep
          simp only [StepResult.state] at hstep
          have hrec := ih st' hstep.1 hstep.2.1
          refine ⟨hrec.1, hrec.2.1, fun hs => ?_⟩
          rw [hrec.2.2 hs]
          exact hstep.2.2 hs
        next resp st' hm =>
          rw [hm] at hstep
          simp only [StepResult.state] at hstep
          exact ⟨hstep.1, hstep.2.1, hstep.2.2⟩
        next m st' hm =>
          rw [hm] at hstep
          simp only [StepResult.state] at hstep
          exact ⟨hstep.1, hstep.2.1, hstep.2.2⟩
      next hlt => exact ⟨h1, h2, fun _ => rfl⟩

/-! ## C1 -/

/-- C1: in every run of the agent loop — whatever LLM responses, tool
results, validation outcomes and sub-agent results occur — the number of
`think` substeps (Complete calls) is at most `maxIterations + 1`
(21 with the default `maxIterations = 20`), and the single extra call
beyond `maxIterations` can only come from the one overflow recovery of the
run: a run that never compacted stays within `maxIterations`. -/
theorem think_substep_bound (cfg : LoopCfg) (orc : Oracles)
    (script : List LLMResponse) (msgs : List Message) :
    ((runLoop cfg orc script msgs).state.thinkCount ≤ cfg.maxIterations + 1)
    ∧ ((runLoop cfg orc script msgs).state.hasCompacted = false →
        (runLoop cfg orc script msgs).state.thinkCount ≤ cfg.maxIterations)
    ∧ configMaxIterations = 20 := by
  have h := loopGo_inv cfg orc script (initLoopState msgs)
    (by simp [initLoopState]) (Nat.zero_le _)
  rcases h with ⟨h1, h2, _⟩
  simp only [runLoop]
  refine ⟨?_, ?_, rfl⟩
  · rw [h1]
    cases hb : (loopGo cfg orc script (initLoopState msgs)).state.hasCompacted
      <;> simp <;> omega
  · intro hw
    rw [h1]
    simp only [hw]
    simpa using h2

def mainLoopCfg : LoopCfg := {}

def demoOracles : Oracles :=
  ⟨fun _ => ⟨"ok", false⟩, fun _ => none, fun _ => Except.ok "done"⟩

def demoScript : List LLMResponse :=
  [⟨"stop", "", "hi", [], Message.assistant [Block.text "hi"]⟩]

/-- Witness for C1 at a concrete one-response run with no compaction. -/
theorem think_substep_bound_witness :
    (runLoop mainLoopCfg demoOracles demoScript []).state.thinkCount ≤ 20 :=
  (think_substep_bound mainLoopCfg demoOracles demoScript []).2.1 (by decide)

/-! ## C2 -/

/-- C2: when a `think` call reports `stopReason = error`: if the message
matches the context-overflow regex and no overflow recovery has happened in
this run, the loop does not raise — it replaces everything before the last
`min(6, length)` messages with one synthetic user summary message, records
the compaction, and retries the same iteration (the counter net of the
pass is unchanged); in every other case (non-overflow message, or a second
overflow) the pass throws `LLM error: …` so the durable step retries. -/
theorem loop_error_handling (cfg : LoopCfg) (orc : Oracles) (r : LLMResponse)
    (st : LoopState) (herr : r.stopReason = "error") :
    (isOverflowMsg (errMsgOf r) = true → st.hasCompacted = false →
        loopStep cfg orc r st = .next
          ⟨emergencyCompact (if 3 < st.iterations + 1
              then pruneOldToolResults st.messages else st.messages),
            st.iterations, st.totalToolCalls, true, st.thinkCount + 1, st.subSpawns⟩)
    ∧ ((isOverflowMsg (errMsgOf r) = false ∨ st.hasCompacted = true) →
        loopStep cfg orc r st = .thrown ("LLM error: " ++ errMsgOf r)
          ⟨(if 3 < st.iterations + 1
              then pruneOldToolResults st.messages else st.messages),
            st.iterations + 1, st.totalToolCalls, st.hasCompacted,
            st.thinkCount + 1, st.subSpawns⟩)
    ∧ (∀ ms : List Message, 6 < ms.length →
        emergencyCompact ms
          = overflowSummaryMessage (ms.take (ms.length - 6))
              :: ms.drop (ms.length - 6))
    ∧ (∀ ms : List Message, ms.length ≤ 6 → emergencyCompact ms = ms) := by
  refine ⟨?_, ?_, ?_, ?_⟩
  · intro hov hnc
    simp only [loopStep, herr, hov, hnc]
    simp
  · intro hcase
    simp only [loopStep, herr]
    rcases hcase with hov | hcomp
    · simp [hov]
    · simp [hcomp]
  · intro ms h6
    simp only [emergencyCompact]
    rw [show min 6 ms.length = 6 from by omega]
    rw [if_neg (by simp only [List.length_take]; omega)]
  · intro ms h6
    simp only [emergencyCompact]
    rw [show min 6 ms.length = ms.length from by omega, Nat.sub_self]
    simp

def rOv : LLMResponse := ⟨"error", "context overflow", "", [], Message.assistant []⟩

def stOv : LoopState :=
  ⟨[.user "a", .user "b", .user "c", .user "d",
    .user "e", .user "f", .user "g", .user "h"], 0, 0, false, 0, 0⟩

/-- Witness for C2 on a first overflow with 8 messages: the loop continues
with the synthetic summary plus the last 6 messages and a net-unchanged
iteration counter. -/
theorem loop_error_handling_witness :
    loopStep mainLoopCfg demoOracles rOv stOv
      = .next ⟨[Message.user
            "[Previous conversation was too long and has been summarized]\n\nUSER: a\nUSER: b",
          .user "c", .user "d", .user "e", .user "f", .user "g", .user "h"],
        0, 0, true, 1, 0⟩ := by
  have h := (loop_error_handling mainLoopCfg demoOracles rOv stOv rfl).1 (by decide) rfl
  rw [h]
  decide

/-! ## C9 -/

/-- C9: recursive sub-agent spawning is impossible.  `SUB_AGENT_TOOLS`
contains no `delegate_task` descriptor; in a run configured as the
sub-agent function configures it (`isSubAgent = true`, `tools =
SUB_AGENT_TOOLS`) the sub-agent-spawning branch of the loop never executes
(the spawn count of any such run is 0); and a `delegate_task` tool call
emitted inside a sub-agent produces an error tool result
`Unknown tool: delegate_task` instead of invoking a nested child agent. -/
theorem subagent_no_recursion :
    (SUB_AGENT_TOOLS.all (fun t => t.name ≠ "delegate_task") = true)
    ∧ (∀ (orc : Oracles) (script : List LLMResponse) (msgs : List Message),
        (runLoop subAgentLoopCfg orc script msgs).state.subSpawns = 0)
    ∧ (∀ (orc : Oracles) (tc : ToolCallRec) (st : LoopState),
        tc.name = "delegate_task" →
        execOneTool subAgentLoopCfg orc tc st
          = .ok { st with
                  totalToolCalls := st.totalToolCalls + 1
                  messages := st.messages
                    ++ [.toolResult tc.id tc.name
                        [.text "Unknown tool: delegate_task"] true] }) := by
  refine ⟨by decide, ?_, ?_⟩
  · intro orc script msgs
    have h := (loopGo_inv subAgentLoopCfg orc script (initLoopState msgs)
      (by simp [initLoopState]) (Nat.zero_le _)).2.2 rfl
    simpa [runLoop, initLoopState] using h
  · intro orc tc st htc
    have hany : (SUB_AGENT_TOOLS.any (fun t => decide (t.name = "delegate_task"))) = false := by
      decide
    have hmem : "delegate_task" ∉ knownExecNames := by decide
    have happ : "Unknown tool: " ++ "delegate_task" = "Unknown tool: delegate_task" := rfl
    simp only [execOneTool, executeTool, htc, subAgentLoopCfg]
    simp [hany, hmem, happ]

/-- Witness for C9: a concrete `delegate_task` call inside a sub-agent
yields the unknown-tool error result and no spawn. -/
theorem subagent_no_recursion_witness :
    execOneTool subAgentLoopCfg demoOracles ⟨"id1", "delegate_task", []⟩
        (initLoopState [])
      = .ok ⟨[.toolResult "id1" "delegate_task"
            [.text "Unknown tool: delegate_task"] true], 0, 1, false, 0, 0⟩ := by
  have h := subagent_no_recursion.2.2 demoOracles ⟨"id1", "delegate_task", []⟩
    (initLoopState []) rfl
  rw [h]
  decide

end Utah
